import Mathlib

/-!
Shallow embedding of `scripts/make_favicon_ico.py`: a tool that packs square
PNG images into a single multi-resolution Windows ICO container.

Bytes are modelled as `List Nat` (each entry a value 0..255 in well-formed
data); file paths are `String`s; the filesystem is an association list from
path to file bytes.  Fallible Python code (functions that `raise`) is
modelled with `Except String`.
-/

namespace Favicon

/-- Little-endian 16-bit encoding, as produced by `struct.pack "<H"`. -/
def u16le (n : Nat) : List Nat := [n % 256, n / 256 % 256]

/-- Little-endian 32-bit encoding, as produced by `struct.pack "<I"`. -/
def u32le (n : Nat) : List Nat :=
  [n % 256, n / 256 % 256, n / 2 ^ 16 % 256, n / 2 ^ 24 % 256]

/-- Big-endian 32-bit decoding, as done by `struct.unpack ">I"`. -/
def be32 (bs : List Nat) : Nat := bs.foldl (fun a b => a * 256 + b) 0

/-- The fixed 8-byte PNG signature `\x89PNG\r\n\x1a\n`. -/
def PNG_SIGNATURE : List Nat := [137, 80, 78, 71, 13, 10, 26, 10]

/-- The byte string `IHDR`. -/
def IHDR_TYPE : List Nat := [73, 72, 68, 82]

/-- The constant `DEFAULT_ICO_SIZES_DESC = [256, 128, 64, 48, 32, 24, 16]`. -/
def DEFAULT_ICO_SIZES_DESC : List Nat := [256, 128, 64, 48, 32, 24, 16]

/-- The `PngIcon` dataclass: source path, pixel size (width = height), raw
file bytes. -/
structure PngIcon where
  path : String
  size : Nat
  data : List Nat
  deriving DecidableEq, Repr

/-- The function `read_png`, applied to the bytes read from `path`: validates the PNG
signature and the IHDR chunk, requires a square nonzero image, and returns
the icon record carrying the full original bytes. -/
def read_png (path : String) (data : List Nat) : Except String PngIcon :=
  if data.length < 33 ∨ data.take 8 ≠ PNG_SIGNATURE then
    Except.error (path ++ ": not a valid PNG file")
  else if (data.drop 12).take 4 ≠ IHDR_TYPE ∨ be32 ((data.drop 8).take 4) < 8 then
    Except.error (path ++ ": invalid IHDR chunk")
  else if be32 ((data.drop 16).take 4) ≠ be32 ((data.drop 20).take 4) then
    Except.error (path ++ ": icon must be square")
  else if be32 ((data.drop 16).take 4) = 0 then
    Except.error (path ++ ": invalid icon size 0x0")
  else
    Except.ok { path := path, size := be32 ((data.drop 16).take 4), data := data }

/-- The function `ico_size_byte`: the ICO directory stores 256 as 0. -/
def ico_size_byte (size : Nat) : Nat :=
  if size = 256 then 0 else size

/-- One 16-byte ICO directory entry:
width, height, palette colors, reserved, color planes (16-bit), bits per
pixel (16-bit), payload byte length (32-bit), payload offset (32-bit),
all little-endian, as packed by `struct.pack "<BBBBHHII"`. -/
def icoEntry (icon : PngIcon) (offset : Nat) : List Nat :=
  [ico_size_byte icon.size, ico_size_byte icon.size, 0, 0]
    ++ u16le 1 ++ u16le 32 ++ u32le icon.data.length ++ u32le offset

/-- The 6-byte ICO file header: reserved=0, type=1, count, little-endian
16-bit each (`struct.pack "<HHH"`). -/
def icoHeader (count : Nat) : List Nat := u16le 0 ++ u16le 1 ++ u16le count

/-- The loop body of `build_ico`: walks the icons accumulating directory
entries and payload bytes, threading the running payload offset.  Fails if
an icon's size exceeds 256, or if a payload length or offset does not fit
in the 32-bit field (`struct.pack` raises `struct.error` on overflow). -/
def buildLoop : List PngIcon → Nat → Except String (List Nat × List Nat)
  | [], _ => Except.ok ([], [])
  | icon :: rest, offset =>
    if icon.size > 256 then
      Except.error (icon.path ++ ": cannot be stored in ICO directory")
    else if icon.data.length ≥ 2 ^ 32 then
      Except.error "struct.error: argument out of range"
    else if offset ≥ 2 ^ 32 then
      Except.error "struct.error: argument out of range"
    else
      match buildLoop rest (offset + icon.data.length) with
      | Except.error e => Except.error e
      | Except.ok (es, ds) =>
        Except.ok (icoEntry icon offset ++ es, icon.data ++ ds)

/-- The function `build_ico`: header, then one 16-byte directory entry per icon, then
the concatenated raw PNG payloads.  Fails if the icon count exceeds 65535
or the loop fails. -/
def build_ico (icons : List PngIcon) : Except String (List Nat) :=
  if icons.length > 65535 then
    Except.error "too many icons for ICO format"
  else
    match buildLoop icons (6 + 16 * icons.length) with
    | Except.error e => Except.error e
    | Except.ok (es, ds) => Except.ok (icoHeader icons.length ++ es ++ ds)

/-- Pure description of the directory-entry bytes produced by a successful
`buildLoop` run starting at `offset`. -/
def entriesSpecAux : List PngIcon → Nat → List Nat
  | [], _ => []
  | icon :: rest, offset =>
    icoEntry icon offset ++ entriesSpecAux rest (offset + icon.data.length)

/-- Sum of the payload lengths of entries `0..i-1`. -/
def sumTake (icons : List PngIcon) (i : Nat) : Nat :=
  ((icons.take i).map (fun ic => ic.data.length)).sum

/-- The payload offset of directory entry `i`:
`6 + 16*N` plus the payload lengths of entries `0..i-1`. -/
def offsetAt (icons : List PngIcon) (i : Nat) : Nat :=
  6 + 16 * icons.length + sumTake icons i

/-- Python whitespace characters removed by `str.strip()`. -/
def isPySpace (c : Char) : Bool :=
  c = ' ' ∨ c = '\t' ∨ c = '\n' ∨ c = '\r' ∨ c = '\x0b' ∨ c = '\x0c'

/-- Python `str.strip()`: removes leading and trailing whitespace. -/
def pyStrip (s : String) : String :=
  ⟨((s.data.dropWhile isPySpace).reverse.dropWhile isPySpace).reverse⟩

/-- Digit run to a number; `none` on an empty run or a non-digit. -/
def digitsToNat : List Char → Option Nat
  | [] => none
  | cs =>
    if cs.all (fun c => c.isDigit) then
      some (cs.foldl (fun a c => a * 10 + (c.toNat - 48)) 0)
    else none

/-- Python `int(token)` on an already-stripped token: an optional sign
followed by decimal digits; `none` (i.e. `ValueError`) otherwise. -/
def pyInt (t : String) : Option Int :=
  match t.data with
  | '+' :: ds => (digitsToNat ds).map Int.ofNat
  | '-' :: ds => (digitsToNat ds).map (fun n => -(n : Int))
  | ds => (digitsToNat ds).map Int.ofNat

/-- Python `set.add`: set insertion, modelled as first-occurrence-ordered
insertion into a duplicate-free list. -/
def setInsert (acc : List Nat) (n : Nat) : List Nat :=
  if n ∈ acc then acc else acc ++ [n]

/-- Helper of `pySplitComma`: walks the characters, accumulating the
current (reversed) token. -/
def splitCommaAux : List Char → List Char → List String
  | [], cur => [⟨cur.reverse⟩]
  | c :: cs, cur =>
    if c = ',' then ⟨cur.reverse⟩ :: splitCommaAux cs []
    else splitCommaAux cs (c :: cur)

/-- Python `raw.split(",")`: the comma-separated pieces, keeping empty
pieces (`"".split(",") = [""]`, `",64".split(",") = ["", "64"]`). -/
def pySplitComma (s : String) : List String := splitCommaAux s.data []

/-- Token loop of `parse_sizes`: strips each token, skips empty tokens,
parses the rest as integers, rejects non-positive values. -/
def parseSizesLoop : List String → List Nat → Except String (List Nat)
  | [], acc => Except.ok acc
  | t :: ts, acc =>
    if pyStrip t = "" then parseSizesLoop ts acc
    else
      match pyInt (pyStrip t) with
      | none => Except.error ("invalid size value: " ++ pyStrip t)
      | some v =>
        if v ≤ 0 then Except.error "size must be > 0"
        else parseSizesLoop ts (setInsert acc v.toNat)

/-- The function `parse_sizes`: `None` (or the empty string, both falsy) yields no
allow-list; otherwise split on commas, strip, parse, and reject an empty
result set. -/
def parse_sizes (raw : Option String) : Except String (Option (List Nat)) :=
  match raw with
  | none => Except.ok none
  | some r =>
    if r = "" then Except.ok none
    else
      match parseSizesLoop (pySplitComma r) [] with
      | Except.error e => Except.error e
      | Except.ok sizes =>
        if sizes = [] then
          Except.error "at least one size must be provided with --sizes"
        else
          Except.ok (some sizes)

/-- The predicate an icon must satisfy to survive `filter_icons`:
size at most `max_size`, and member of the allow-list when one is active. -/
def keepIcon (include_sizes : Option (List Nat)) (max_size : Int) (icon : PngIcon) : Bool :=
  !(decide ((icon.size : Int) > max_size)) &&
    match include_sizes with
    | none => true
    | some sizes => decide (icon.size ∈ sizes)

/-- The function `filter_icons`: keeps the icons passing `keepIcon`, in order; fails if
none survive. -/
def filter_icons (icons : List PngIcon) (include_sizes : Option (List Nat))
    (max_size : Int) : Except String (List PngIcon) :=
  let result := icons.filter (keepIcon include_sizes max_size)
  if result = [] then Except.error "no icons left after filtering"
  else Except.ok result

/-- One step of Python `dict` assignment `by_size[k] = v`: replace the
value in place when the key is present, append otherwise (insertion-ordered
last-write-wins map). -/
def insertLW (m : List (Nat × PngIcon)) (k : Nat) (v : PngIcon) : List (Nat × PngIcon) :=
  match m with
  | [] => [(k, v)]
  | (k', v') :: rest =>
    if k' = k then (k, v) :: rest else (k', v') :: insertLW rest k v

/-- The function `unique_by_size`: fold the icons into an insertion-ordered dict keyed
by size (last wins), then take `dict.values()`. -/
def unique_by_size (icons : List PngIcon) : List PngIcon :=
  (icons.foldl (fun m icon => insertLW m icon.size icon) []).map Prod.snd

/-- Stable insertion of `a` into `l`: `a` goes in front of the first
element it may precede (`le a y = true`). -/
def insertS {α : Type} (le : α → α → Bool) (a : α) : List α → List α
  | [] => [a]
  | y :: ys => if le a y then a :: y :: ys else y :: insertS le a ys

/-- Stable insertion sort, the extensional behavior of Python's stable
`sorted`. -/
def sortS {α : Type} (le : α → α → Bool) : List α → List α
  | [] => []
  | a :: rest => insertS le a (sortS le rest)

/-- The comparator of `sort_icons`: by size, reversed when `order`
is `"desc"`. -/
def sizeLe (order : String) (a b : PngIcon) : Bool :=
  if order = "desc" then b.size ≤ a.size else a.size ≤ b.size

/-- The function `sort_icons`: stable sort by size, descending when `order = "desc"`,
ascending otherwise. -/
def sort_icons (icons : List PngIcon) (order : String) : List PngIcon :=
  sortS (sizeLe order) icons

/-- Code-point lexicographic order on character lists: the comparison
Python uses on `str`. -/
def lexLe : List Char → List Char → Bool
  | [], _ => true
  | _ :: _, [] => false
  | a :: as, b :: bs =>
    if a < b then true else if b < a then false else lexLe as bs

/-- Lexicographic order on paths. -/
def strLe (a b : String) : Bool := lexLe a.data b.data

/-- Whether `path` matches the glob pattern `dir ++ "/icon-*.png"`
(`*` matches any run of characters without a path separator). -/
def matchesIconGlob (dir path : String) : Bool :=
  let pre := dir ++ "/icon-"
  path.length ≥ pre.length + 4 ∧
    path.data.take pre.length = pre.data ∧
    (path.data.reverse.take 4).reverse = ".png".data ∧
    ((path.data.drop pre.length).reverse.drop 4).all (fun c => c ≠ '/')

/-- Python `sorted(glob.glob(os.path.join(icons_dir, "icon-*.png")))`: the paths
present in the filesystem that match the pattern, lexicographically
sorted. -/
def globSorted (dir : String) (fs : List (String × List Nat)) : List String :=
  sortS strLe ((fs.map Prod.fst).filter (matchesIconGlob dir))

/-- Python truthiness of the `--inputs` argument: `None` and `[]` are both
falsy. -/
def inputsTruthy (inputs : Option (List String)) : Bool :=
  match inputs with
  | none => false
  | some l => ¬l.isEmpty

/-- The function `discover_pngs`: an explicit non-empty input list is returned verbatim;
otherwise the sorted glob of `icon-*.png` in the icons directory. -/
def discover_pngs (icons_dir : String) (explicit_inputs : Option (List String))
    (fs : List (String × List Nat)) : List String :=
  match explicit_inputs with
  | some l => if l.isEmpty then globSorted icons_dir fs else l
  | none => globSorted icons_dir fs

/-- Reading one file from the filesystem: a missing path raises `OSError`
at `open`, modelled as an error. -/
def readPngFile (fs : List (String × List Nat)) (path : String) : Except String PngIcon :=
  match fs.lookup path with
  | none => Except.error (path ++ ": cannot open")
  | some data => read_png path data

/-- The list comprehension `[read_png(path) for path in png_paths]`:
sequential, aborting at the first failure. -/
def readAll (fs : List (String × List Nat)) (paths : List String) :
    Except String (List PngIcon) :=
  paths.mapM (readPngFile fs)

/-- The default-size preference of `main`: the preferred sizes that were
actually discovered, in `DEFAULT_ICO_SIZES_DESC` order; `none` when the
intersection is empty. -/
def defaultPreferred (icons : List PngIcon) : Option (List Nat) :=
  let preferred := DEFAULT_ICO_SIZES_DESC.filter
    (fun size => icons.any (fun icon => icon.size = size))
  if preferred.isEmpty then none else some preferred

/-- The selection-and-encoding tail of `main`: apply the default-size
preference when no explicit sizes and no explicit inputs were given, then
filter, dedupe, sort, and build; returns the final icon list together with
the ICO bytes. -/
def selectAndBuild (icons : List PngIcon) (include_sizes : Option (List Nat))
    (inputsGiven : Bool) (max_size : Int) (order : String) :
    Except String (List PngIcon × List Nat) :=
  let include_sizes :=
    if include_sizes.isNone ∧ ¬inputsGiven then
      match defaultPreferred icons with
      | some preferred => some preferred
      | none => include_sizes
    else include_sizes
  match filter_icons icons include_sizes max_size with
  | Except.error e => Except.error e
  | Except.ok kept =>
    let final := sort_icons (unique_by_size kept) order
    match build_ico final with
    | Except.error e => Except.error e
    | Except.ok bytes => Except.ok (final, bytes)

/-- The command-line arguments of the tool (after `argparse`). -/
structure Args where
  iconsDir : String := "public/icons"
  output : String := "public/icons/favicon.ico"
  inputs : Option (List String) := none
  sizes : Option String := none
  order : String := "desc"
  maxSize : Int := 256
  deriving Repr

/-- The observable result of one run of `main`: the process exit code, the
bytes written to the output path (`none` when nothing is written), and the
line printed (success message, or the `error:`-prefixed message). -/
structure RunResult where
  exitCode : Nat
  written : Option (List Nat)
  line : String
  deriving DecidableEq, Repr

/-- The function `main`: parse the size list, discover paths, read every PNG, apply the
default-size preference, filter, dedupe, sort, encode, and write; any
failure prints `error: <message>` and exits 1 with nothing written. -/
def mainRun (args : Args) (fs : List (String × List Nat)) : RunResult :=
  match parse_sizes args.sizes with
  | Except.error e => ⟨1, none, "error: " ++ e⟩
  | Except.ok include_sizes =>
    let png_paths := discover_pngs args.iconsDir args.inputs fs
    if png_paths = [] then ⟨1, none, "error: no PNG files found"⟩
    else
      match readAll fs png_paths with
      | Except.error e => ⟨1, none, "error: " ++ e⟩
      | Except.ok icons =>
        match selectAndBuild icons include_sizes (inputsTruthy args.inputs)
            args.maxSize args.order with
        | Except.error e => ⟨1, none, "error: " ++ e⟩
        | Except.ok (final, bytes) =>
          ⟨0, some bytes,
            "Wrote " ++ args.output ++ " with " ++ toString final.length
              ++ " images: "
              ++ String.intercalate ", "
                   (final.map (fun icon => toString icon.size))⟩

/-! ### Concrete instances used in witnesses and counterexamples -/

/-- A minimal 33-byte square PNG of size `s`: signature, IHDR declared
length 13, width = height = `s`, and 9 trailing bytes standing in for the
rest of the chunk data. -/
def mkPngBytes (s : Nat) : List Nat :=
  PNG_SIGNATURE ++ [0, 0, 0, 13] ++ IHDR_TYPE
    ++ [s / 2 ^ 24 % 256, s / 2 ^ 16 % 256, s / 256 % 256, s % 256]
    ++ [s / 2 ^ 24 % 256, s / 2 ^ 16 % 256, s / 256 % 256, s % 256]
    ++ [8, 6, 0, 0, 0, 1, 2, 3, 4]

/-- A concrete 256-pixel icon with a 3-byte payload. -/
def w1IconA : PngIcon := { path := "a", size := 256, data := [1, 2, 3] }

/-- A concrete 16-pixel icon with a 1-byte payload. -/
def w1IconB : PngIcon := { path := "b", size := 16, data := [9] }

/-- A concrete two-icon list. -/
def w1Icons : List PngIcon := [w1IconA, w1IconB]

/-- The ICO bytes `build_ico` produces for `w1Icons`. -/
def w1Out : List Nat :=
  [0, 0, 1, 0, 2, 0,
   0, 0, 0, 0, 1, 0, 32, 0, 3, 0, 0, 0, 38, 0, 0, 0,
   16, 16, 0, 0, 1, 0, 32, 0, 1, 0, 0, 0, 41, 0, 0, 0,
   1, 2, 3, 9]

/-- An icon whose size exceeds the ICO directory limit. -/
def wBigIcon : PngIcon := { path := "big", size := 300, data := [] }

/-- Concrete parsed icons built from `mkPngBytes`. -/
def wIcon16 : PngIcon :=
  { path := "public/icons/icon-16.png", size := 16, data := mkPngBytes 16 }

/-- The 32-pixel variant of `wIcon16`. -/
def wIcon32 : PngIcon :=
  { path := "public/icons/icon-32.png", size := 32, data := mkPngBytes 32 }

/-- The 256-pixel variant of `wIcon16`. -/
def wIcon256 : PngIcon :=
  { path := "public/icons/icon-256.png", size := 256, data := mkPngBytes 256 }

/-- A filesystem holding a 16-pixel and a 32-pixel icon PNG. -/
def wFs : List (String × List Nat) :=
  [("public/icons/icon-16.png", mkPngBytes 16),
   ("public/icons/icon-32.png", mkPngBytes 32)]

/-- A filesystem holding only a 32-pixel and a 256-pixel icon PNG. -/
def w8Fs : List (String × List Nat) :=
  [("public/icons/icon-32.png", mkPngBytes 32),
   ("public/icons/icon-256.png", mkPngBytes 256)]

/-- The 48-pixel variant of `wIcon16`. -/
def wIcon48 : PngIcon :=
  { path := "public/icons/icon-48.png", size := 48, data := mkPngBytes 48 }

/-- A 32-pixel icon, first duplicate. -/
def wDup1 : PngIcon := { path := "a32", size := 32, data := [1] }

/-- A 32-pixel icon, second duplicate with different bytes. -/
def wDup2 : PngIcon := { path := "b32", size := 32, data := [2] }

/-! ### Encoder lemmas -/

theorem icoEntry_length (icon : PngIcon) (offset : Nat) :
    (icoEntry icon offset).length = 16 := rfl

theorem icoEntry_take2 (icon : PngIcon) (offset : Nat) :
    (icoEntry icon offset).take 2
      = [ico_size_byte icon.size, ico_size_byte icon.size] := rfl

theorem icoEntry_drop12 (icon : PngIcon) (offset : Nat) :
    (icoEntry icon offset).drop 12 = u32le offset := rfl

theorem icoHeader_length (count : Nat) : (icoHeader count).length = 6 := rfl

theorem entriesSpecAux_length (icons : List PngIcon) :
    ∀ off : Nat, (entriesSpecAux icons off).length = 16 * icons.length := by
  induction icons with
  | nil => intro off; rfl
  | cons ic rest ih =>
    intro off
    simp only [entriesSpecAux, List.length_append, icoEntry_length, ih,
      List.length_cons]
    ring

theorem sumTake_zero (icons : List PngIcon) : sumTake icons 0 = 0 := rfl

theorem sumTake_cons_succ (ic : PngIcon) (rest : List PngIcon) (i : Nat) :
    sumTake (ic :: rest) (i + 1) = ic.data.length + sumTake rest i := by
  simp [sumTake]

theorem buildLoop_ok {icons : List PngIcon} : ∀ {off : Nat} {p},
    buildLoop icons off = Except.ok p →
    p = (entriesSpecAux icons off, icons.flatMap fun ic => ic.data) := by
  induction icons with
  | nil =>
    intro off p h
    simp only [buildLoop, Except.ok.injEq] at h
    simp [entriesSpecAux, ← h]
  | cons ic rest ih =>
    intro off p h
    simp only [buildLoop] at h
    split at h
    · exact absurd h (by simp)
    split at h
    · exact absurd h (by simp)
    split at h
    · exact absurd h (by simp)
    cases hr : buildLoop rest (off + ic.data.length) with
    | error e => rw [hr] at h; exact absurd h (by simp)
    | ok q =>
      obtain ⟨es, ds⟩ := q
      rw [hr] at h
      simp only [Except.ok.injEq] at h
      have hq := ih hr
      simp only [Prod.mk.injEq] at hq
      simp [← h, entriesSpecAux, hq.1, hq.2]

theorem build_ico_ok {icons : List PngIcon} {out : List Nat}
    (h : build_ico icons = Except.ok out) :
    icons.length ≤ 65535 ∧
      out = icoHeader icons.length
        ++ entriesSpecAux icons (6 + 16 * icons.length)
        ++ icons.flatMap fun ic => ic.data := by
  unfold build_ico at h
  split at h
  · exact absurd h (by simp)
  next hle =>
    cases hb : buildLoop icons (6 + 16 * icons.length) with
    | error e => rw [hb] at h; exact absurd h (by simp)
    | ok q =>
      obtain ⟨es, ds⟩ := q
      rw [hb] at h
      simp only [Except.ok.injEq] at h
      have hq := buildLoop_ok hb
      simp only [Prod.mk.injEq] at hq
      refine ⟨by omega, ?_⟩
      rw [← h, hq.1, hq.2]

theorem flatMap_data_length (icons : List PngIcon) :
    (icons.flatMap fun ic => ic.data).length
      = (icons.map fun ic => ic.data.length).sum := by
  induction icons with
  | nil => rfl
  | cons ic rest ih => simp [ih]

theorem build_ico_length {icons : List PngIcon} {out : List Nat}
    (h : build_ico icons = Except.ok out) :
    out.length = 6 + 16 * icons.length
      + (icons.map fun ic => ic.data.length).sum := by
  obtain ⟨-, rfl⟩ := build_ico_ok h
  simp only [List.length_append, icoHeader_length, entriesSpecAux_length,
    flatMap_data_length]

theorem entriesSpecAux_slice (icons : List PngIcon) :
    ∀ (off i : Nat) (icon : PngIcon), icons[i]? = some icon →
      ((entriesSpecAux icons off).drop (16 * i)).take 16
        = icoEntry icon (off + sumTake icons i) := by
  induction icons with
  | nil => intro off i icon h; simp at h
  | cons ic rest ih =>
    intro off i icon h
    cases i with
    | zero =>
      simp only [List.getElem?_cons_zero, Option.some.injEq] at h
      subst h
      simp only [entriesSpecAux, Nat.mul_zero, List.drop_zero, sumTake_zero,
        Nat.add_zero]
      rw [show (16 : Nat) = (icoEntry ic off).length from rfl, List.take_left]
    | succ i =>
      simp only [List.getElem?_cons_succ] at h
      simp only [entriesSpecAux]
      rw [show 16 * (i + 1) = (icoEntry ic off).length + 16 * i by
        rw [icoEntry_length]; ring]
      rw [List.drop_append, ih (off + ic.data.length) i icon h,
        sumTake_cons_succ]
      congr 1
      ring

theorem build_ico_slice {icons : List PngIcon} {out : List Nat}
    (h : build_ico icons = Except.ok out) {i : Nat} {icon : PngIcon}
    (hi : icons[i]? = some icon) :
    (out.drop (6 + 16 * i)).take 16 = icoEntry icon (offsetAt icons i) := by
  obtain ⟨-, rfl⟩ := build_ico_ok h
  have hlt : i < icons.length := by
    by_contra hge
    rw [List.getElem?_eq_none (by omega)] at hi
    cases hi
  rw [List.append_assoc]
  rw [show 6 + 16 * i = (icoHeader icons.length).length + 16 * i by
    rw [icoHeader_length]]
  rw [List.drop_append]
  rw [List.drop_append_of_le_length (by rw [entriesSpecAux_length]; omega)]
  rw [List.take_append_of_le_length
    (by rw [List.length_drop, entriesSpecAux_length]; omega)]
  exact entriesSpecAux_slice icons _ i icon hi

theorem build_ico_offset_field {icons : List PngIcon} {out : List Nat}
    (h : build_ico icons = Except.ok out) {i : Nat} {icon : PngIcon}
    (hi : icons[i]? = some icon) :
    (out.drop (6 + 16 * i + 12)).take 4 = u32le (offsetAt icons i) := by
  have hs := build_ico_slice h hi
  rw [show 6 + 16 * i + 12 = 6 + 16 * i + 12 from rfl, ← List.drop_drop,
    List.take_drop]
  rw [show 12 + 4 = 16 from rfl, hs, icoEntry_drop12]

theorem build_ico_dim_bytes {icons : List PngIcon} {out : List Nat}
    (h : build_ico icons = Except.ok out) {i : Nat} {icon : PngIcon}
    (hi : icons[i]? = some icon) :
    (out.drop (6 + 16 * i)).take 2
      = [ico_size_byte icon.size, ico_size_byte icon.size] := by
  have hs := build_ico_slice h hi
  have h2 : ((out.drop (6 + 16 * i)).take 16).take 2
      = (out.drop (6 + 16 * i)).take 2 := by
    simp [List.take_take]
  rw [← h2, hs, icoEntry_take2]

theorem buildLoop_oversize {icon : PngIcon} (hbig : 256 < icon.size) :
    ∀ icons : List PngIcon, icon ∈ icons →
      ∀ off, ∃ msg, buildLoop icons off = Except.error msg := by
  intro icons
  induction icons with
  | nil => intro hmem; cases hmem
  | cons ic rest ih =>
    intro hmem off
    by_cases h1 : ic.size > 256
    · refine ⟨ic.path ++ ": cannot be stored in ICO directory", ?_⟩
      unfold buildLoop
      rw [if_pos h1]
    · have hmem' : icon ∈ rest := by
        rcases List.mem_cons.mp hmem with he | hr
        · subst he; omega
        · exact hr
      by_cases h2 : ic.data.length ≥ 2 ^ 32
      · refine ⟨"struct.error: argument out of range", ?_⟩
        unfold buildLoop
        rw [if_neg h1, if_pos h2]
      · by_cases h3 : off ≥ 2 ^ 32
        · refine ⟨"struct.error: argument out of range", ?_⟩
          unfold buildLoop
          rw [if_neg h1, if_neg h2, if_pos h3]
        · obtain ⟨msg, hmsg⟩ := ih hmem' (off + ic.data.length)
          refine ⟨msg, ?_⟩
          unfold buildLoop
          rw [if_neg h1, if_neg h2, if_neg h3, hmsg]

theorem build_ico_oversize {icons : List PngIcon} {icon : PngIcon}
    (hmem : icon ∈ icons) (hbig : 256 < icon.size) :
    ∃ msg, build_ico icons = Except.error msg := by
  by_cases hn : icons.length > 65535
  · refine ⟨"too many icons for ICO format", ?_⟩
    unfold build_ico
    rw [if_pos hn]
  · obtain ⟨msg, hmsg⟩ := buildLoop_oversize hbig icons hmem (6 + 16 * icons.length)
    refine ⟨msg, ?_⟩
    unfold build_ico
    rw [if_neg hn, hmsg]

theorem buildLoop_ok_of_bounds : ∀ (icons : List PngIcon) (off : Nat),
    (∀ ic ∈ icons, ic.size ≤ 256) →
    off + (icons.map fun ic => ic.data.length).sum < 2 ^ 32 →
    buildLoop icons off
      = Except.ok (entriesSpecAux icons off, icons.flatMap fun ic => ic.data) := by
  intro icons
  induction icons with
  | nil => intro off _ _; rfl
  | cons ic rest ih =>
    intro off hsz hoff
    have hsum : ((ic :: rest).map fun i => i.data.length).sum
        = ic.data.length + (rest.map fun i => i.data.length).sum := by simp
    rw [hsum] at hoff
    have h1 : ¬ic.size > 256 := by have := hsz ic (by simp); omega
    have h2 : ¬ic.data.length ≥ 2 ^ 32 := by omega
    have h3 : ¬off ≥ 2 ^ 32 := by omega
    unfold buildLoop
    rw [if_neg h1, if_neg h2, if_neg h3,
      ih (off + ic.data.length) (fun i hi => hsz i (by simp [hi])) (by omega)]
    rfl

theorem build_ico_of_bounds {icons : List PngIcon}
    (hn : icons.length ≤ 65535) (hsz : ∀ ic ∈ icons, ic.size ≤ 256)
    (hlen : 6 + 16 * icons.length + (icons.map fun ic => ic.data.length).sum
      < 2 ^ 32) :
    build_ico icons
      = Except.ok (icoHeader icons.length
          ++ entriesSpecAux icons (6 + 16 * icons.length)
          ++ icons.flatMap fun ic => ic.data) := by
  unfold build_ico
  rw [if_neg (by omega),
    buildLoop_ok_of_bounds icons (6 + 16 * icons.length) hsz (by omega)]

theorem build_ico_last {icons : List PngIcon} {out : List Nat}
    (h : build_ico icons = Except.ok out) (hne : icons ≠ []) :
    offsetAt icons (icons.length - 1) + (icons.getLast hne).data.length
      = out.length := by
  rw [build_ico_length h]
  have hsum : (icons.map fun ic => ic.data.length).sum
      = ((icons.take (icons.length - 1)).map fun ic => ic.data.length).sum
        + (icons.getLast hne).data.length := by
    conv_lhs => rw [← List.dropLast_append_getLast hne]
    rw [List.map_append, List.sum_append, List.dropLast_eq_take]
    simp
  unfold offsetAt sumTake
  omega

/-! ### Claim C1 -/

/-- Claim C1: For every accepted icon list of length `N` (each icon size
≤ 256, `N` ≤ 65535), `build_ico` returns exactly
header ‖ directory-entries ‖ payloads: the header is the 6 bytes
reserved=0, type=1, count=N (little-endian 16-bit each), the payloads are
the icons' raw data bytes in entry order, directory entry `i`'s 32-bit
offset field equals `6 + 16*N +` the sum of the payload lengths of entries
`0..i-1`, and the last entry's offset plus its length equals the total
output byte length. -/
theorem C1_build_ico_layout (icons : List PngIcon) (out : List Nat)
    (h : build_ico icons = Except.ok out) :
    icons.length ≤ 65535
    ∧ out = icoHeader icons.length
        ++ entriesSpecAux icons (6 + 16 * icons.length)
        ++ icons.flatMap (fun ic => ic.data)
    ∧ out.take 6 = u16le 0 ++ u16le 1 ++ u16le icons.length
    ∧ (∀ i icon, icons[i]? = some icon →
        (out.drop (6 + 16 * i + 12)).take 4 = u32le (offsetAt icons i))
    ∧ (∀ hne : icons ≠ [],
        offsetAt icons (icons.length - 1) + (icons.getLast hne).data.length
          = out.length) := by
  obtain ⟨hn, hout⟩ := build_ico_ok h
  refine ⟨hn, hout, ?_, fun i icon hi => build_ico_offset_field h hi,
    fun hne => build_ico_last h hne⟩
  rw [hout, List.append_assoc,
    show (6 : Nat) = (icoHeader icons.length).length from rfl, List.take_left]
  rfl

/-- Witness for C1 at a concrete two-icon list. -/
theorem C1_build_ico_layout_witness :
    build_ico w1Icons = Except.ok w1Out
    ∧ (w1Icons.length ≤ 65535
      ∧ w1Out = icoHeader w1Icons.length
          ++ entriesSpecAux w1Icons (6 + 16 * w1Icons.length)
          ++ w1Icons.flatMap (fun ic => ic.data)
      ∧ w1Out.take 6 = u16le 0 ++ u16le 1 ++ u16le w1Icons.length
      ∧ (∀ i icon, w1Icons[i]? = some icon →
          (w1Out.drop (6 + 16 * i + 12)).take 4 = u32le (offsetAt w1Icons i))
      ∧ (∀ hne : w1Icons ≠ [],
          offsetAt w1Icons (w1Icons.length - 1)
            + (w1Icons.getLast hne).data.length = w1Out.length)) :=
  ⟨rfl, C1_build_ico_layout w1Icons w1Out rfl⟩

/-! ### Claim C4 -/

/-- Claim C4: For every icon passed to the encoder, the directory width byte
and height byte each equal 0 when the icon's size is 256 and equal the
size itself when the size is between 1 and 255; if any icon's size exceeds
256, `build_ico` fails instead of producing output. -/
theorem C4_dimension_bytes :
    (∀ icons out, build_ico icons = Except.ok out →
      ∀ i icon, icons[i]? = some icon →
        (out.drop (6 + 16 * i)).take 2
          = [ico_size_byte icon.size, ico_size_byte icon.size]
        ∧ (icon.size = 256 → ico_size_byte icon.size = 0)
        ∧ (1 ≤ icon.size → icon.size ≤ 255 →
            ico_size_byte icon.size = icon.size))
    ∧ (∀ icons (icon : PngIcon), icon ∈ icons → 256 < icon.size →
        ∃ msg, build_ico icons = Except.error msg) := by
  constructor
  · intro icons out h i icon hi
    refine ⟨build_ico_dim_bytes h hi,
      fun h256 => by simp [ico_size_byte, h256], fun h1 h255 => ?_⟩
    unfold ico_size_byte
    rw [if_neg (by omega)]
  · intro icons icon hmem hbig
    exact build_ico_oversize hmem hbig

/-- Witness for C4: entry 0 of the concrete build, and a concrete
oversized icon. -/
theorem C4_dimension_bytes_witness :
    (build_ico w1Icons = Except.ok w1Out
      ∧ ((w1Out.drop (6 + 16 * 0)).take 2
            = [ico_size_byte w1IconA.size, ico_size_byte w1IconA.size]
        ∧ (w1IconA.size = 256 → ico_size_byte w1IconA.size = 0)
        ∧ (1 ≤ w1IconA.size → w1IconA.size ≤ 255 →
            ico_size_byte w1IconA.size = w1IconA.size)))
    ∧ (wBigIcon ∈ [wBigIcon] ∧ 256 < wBigIcon.size
      ∧ ∃ msg, build_ico [wBigIcon] = Except.error msg) :=
  ⟨⟨rfl, C4_dimension_bytes.1 w1Icons w1Out rfl 0 w1IconA rfl⟩,
   ⟨by decide, by decide,
    C4_dimension_bytes.2 [wBigIcon] wBigIcon (by decide) (by decide)⟩⟩

/-! ### Claim C2 -/

/-- Claim C2: `read_png` returns an icon record if and only if the file
content is at least 33 bytes, starts with the 8-byte PNG signature, has
chunk type `IHDR` at bytes 12–15 with declared length ≥ 8, and has equal,
nonzero big-endian width (bytes 16–19) and height (bytes 20–23); on
success the record's size equals that width and its data is the full
original file bytes; each violation causes an error and no icon record. -/
theorem C2_read_png (path : String) (data : List Nat) :
    ((∃ icon, read_png path data = Except.ok icon) ↔
      (33 ≤ data.length ∧ data.take 8 = PNG_SIGNATURE
        ∧ (data.drop 12).take 4 = IHDR_TYPE
        ∧ 8 ≤ be32 ((data.drop 8).take 4)
        ∧ be32 ((data.drop 16).take 4) = be32 ((data.drop 20).take 4)
        ∧ be32 ((data.drop 16).take 4) ≠ 0))
    ∧ (∀ icon, read_png path data = Except.ok icon →
        icon.path = path ∧ icon.size = be32 ((data.drop 16).take 4)
          ∧ icon.data = data)
    ∧ (¬(33 ≤ data.length ∧ data.take 8 = PNG_SIGNATURE
        ∧ (data.drop 12).take 4 = IHDR_TYPE
        ∧ 8 ≤ be32 ((data.drop 8).take 4)
        ∧ be32 ((data.drop 16).take 4) = be32 ((data.drop 20).take 4)
        ∧ be32 ((data.drop 16).take 4) ≠ 0) →
        ∃ msg, read_png path data = Except.error msg) := by
  unfold read_png
  split_ifs with h1 h2 h3 h4
  · refine ⟨⟨fun hex => ?_, fun hc => ?_⟩,
      fun icon hic => by simp at hic, fun _ => ⟨_, rfl⟩⟩
    · obtain ⟨icon, hic⟩ := hex
      simp at hic
    · rcases h1 with h | h
      · omega
      · exact absurd hc.2.1 h
  · refine ⟨⟨fun hex => ?_, fun hc => ?_⟩,
      fun icon hic => by simp at hic, fun _ => ⟨_, rfl⟩⟩
    · obtain ⟨icon, hic⟩ := hex
      simp at hic
    · rcases h2 with h | h
      · exact absurd hc.2.2.1 h
      · have := hc.2.2.2.1
        omega
  · refine ⟨⟨fun hex => ?_, fun hc => ?_⟩,
      fun icon hic => by simp at hic, fun _ => ⟨_, rfl⟩⟩
    · obtain ⟨icon, hic⟩ := hex
      simp at hic
    · exact absurd hc.2.2.2.2.1 h3
  · refine ⟨⟨fun hex => ?_, fun hc => ?_⟩,
      fun icon hic => by simp at hic, fun _ => ⟨_, rfl⟩⟩
    · obtain ⟨icon, hic⟩ := hex
      simp at hic
    · exact absurd h4 hc.2.2.2.2.2
  · push_neg at h1 h2
    have hcond : 33 ≤ data.length ∧ data.take 8 = PNG_SIGNATURE
        ∧ (data.drop 12).take 4 = IHDR_TYPE
        ∧ 8 ≤ be32 ((data.drop 8).take 4)
        ∧ be32 ((data.drop 16).take 4) = be32 ((data.drop 20).take 4)
        ∧ be32 ((data.drop 16).take 4) ≠ 0 := by
      refine ⟨by omega, h1.2, h2.1, by omega, ?_, h4⟩
      by_contra hne
      exact h3 hne
    refine ⟨⟨fun _ => hcond, fun _ => ⟨_, rfl⟩⟩, fun icon hic => ?_,
      fun hnc => absurd hcond hnc⟩
    cases hic
    exact ⟨rfl, rfl, rfl⟩

/-- Witness for C2: a concrete 7-pixel PNG parses to the expected record,
and a concrete malformed input is rejected. -/
theorem C2_read_png_witness :
    (read_png "p" (mkPngBytes 7)
        = Except.ok { path := "p", size := 7, data := mkPngBytes 7 }
      ∧ ({ path := "p", size := 7, data := mkPngBytes 7 } : PngIcon).path = "p"
      ∧ ({ path := "p", size := 7, data := mkPngBytes 7 } : PngIcon).size
          = be32 (((mkPngBytes 7).drop 16).take 4)
      ∧ ({ path := "p", size := 7, data := mkPngBytes 7 } : PngIcon).data
          = mkPngBytes 7)
    ∧ ∃ msg, read_png "q" [1, 2, 3] = Except.error msg :=
  ⟨⟨rfl, (C2_read_png "p" (mkPngBytes 7)).2.1
      { path := "p", size := 7, data := mkPngBytes 7 } rfl⟩,
   (C2_read_png "q" [1, 2, 3]).2.2 (by decide)⟩

/-! ### Sorting lemmas -/

theorem insertS_perm {α : Type} (le : α → α → Bool) (a : α) (l : List α) :
    (insertS le a l).Perm (a :: l) := by
  induction l with
  | nil => exact List.Perm.refl _
  | cons y ys ih =>
    unfold insertS
    split
    · exact List.Perm.refl _
    · exact (ih.cons y).trans (List.Perm.swap a y ys)

theorem sortS_perm {α : Type} (le : α → α → Bool) (l : List α) :
    (sortS le l).Perm l := by
  induction l with
  | nil => exact List.Perm.refl _
  | cons a ys ih => exact (insertS_perm le a (sortS le ys)).trans (ih.cons a)

theorem insertS_pairwise {α : Type} {le : α → α → Bool}
    (total : ∀ x y, le x y = true ∨ le y x = true)
    (htrans : ∀ x y z, le x y = true → le y z = true → le x z = true)
    (a : α) : ∀ {l : List α}, l.Pairwise (fun x y => le x y = true) →
      (insertS le a l).Pairwise (fun x y => le x y = true) := by
  intro l
  induction l with
  | nil => intro _; simp [insertS]
  | cons y ys ih =>
    intro hl
    obtain ⟨hy, hys⟩ := List.pairwise_cons.mp hl
    unfold insertS
    split
    next hle =>
      refine List.pairwise_cons.mpr ⟨?_, hl⟩
      intro z hz
      rcases List.mem_cons.mp hz with rfl | hz'
      · exact hle
      · exact htrans a y z hle (hy z hz')
    next hle =>
      have hya : le y a = true := by
        rcases total a y with h | h
        · exact absurd h hle
        · exact h
      refine List.pairwise_cons.mpr ⟨?_, ih hys⟩
      intro z hz
      have hz' := (insertS_perm le a ys).mem_iff.mp hz
      rcases List.mem_cons.mp hz' with rfl | hz''
      · exact hya
      · exact hy z hz''

theorem sortS_pairwise {α : Type} {le : α → α → Bool}
    (total : ∀ x y, le x y = true ∨ le y x = true)
    (htrans : ∀ x y z, le x y = true → le y z = true → le x z = true)
    (l : List α) : (sortS le l).Pairwise (fun x y => le x y = true) := by
  induction l with
  | nil => simp [sortS]
  | cons a ys ih => exact insertS_pairwise total htrans a ih

theorem filter_insertS_neg {α : Type} {le : α → α → Bool} {p : α → Bool}
    {a : α} (h : p a = false) :
    ∀ l : List α, (insertS le a l).filter p = l.filter p := by
  intro l
  induction l with
  | nil => simp [insertS, h]
  | cons y ys ih =>
    unfold insertS
    split
    · simp [List.filter_cons, h]
    · rw [List.filter_cons, List.filter_cons]
      cases hpy : p y <;> simp [hpy, ih]

theorem filter_insertS_pos {α : Type} {le : α → α → Bool} {p : α → Bool}
    {a : α} (h : p a = true) (hle : ∀ y, p y = true → le a y = true) :
    ∀ l : List α, (insertS le a l).filter p = a :: l.filter p := by
  intro l
  induction l with
  | nil => simp [insertS, h]
  | cons y ys ih =>
    unfold insertS
    split
    next hley => simp [List.filter_cons, h]
    next hley =>
      have hpy : p y = false := by
        cases hy : p y
        · rfl
        · exact absurd (hle y hy) hley
      rw [List.filter_cons]
      simp [hpy, ih]

theorem sortS_filter {α : Type} {le : α → α → Bool} {p : α → Bool}
    (hmono : ∀ x y, p x = true → p y = true → le x y = true) :
    ∀ l : List α, (sortS le l).filter p = l.filter p := by
  intro l
  induction l with
  | nil => rfl
  | cons a ys ih =>
    unfold sortS
    cases ha : p a
    · rw [filter_insertS_neg ha, ih, List.filter_cons, ha]
      simp
    · rw [filter_insertS_pos ha (fun y hy => hmono a y ha hy), ih,
        List.filter_cons, ha]
      simp

theorem sizeLe_total (order : String) (a b : PngIcon) :
    sizeLe order a b = true ∨ sizeLe order b a = true := by
  unfold sizeLe
  split <;> simpa using Nat.le_total _ _

theorem sizeLe_trans (order : String) (a b c : PngIcon)
    (h1 : sizeLe order a b = true) (h2 : sizeLe order b c = true) :
    sizeLe order a c = true := by
  unfold sizeLe at h1 h2 ⊢
  split at h1 <;> simp_all <;> omega

/-! ### Claim C6 -/

/-- Claim C6: `sort_icons` performs a stable sort by size: with order
`"desc"` the result is in non-increasing size order and with `"asc"` in
non-decreasing size order, preserving the relative input order of icons of
equal size; for sizes `{16, 48, 256}`, `"desc"` yields `[256, 48, 16]` and
`"asc"` yields `[16, 48, 256]`. -/
theorem C6_sort_icons :
    (∀ icons, (sort_icons icons "desc").Pairwise fun a b => b.size ≤ a.size)
    ∧ (∀ icons, (sort_icons icons "asc").Pairwise fun a b => a.size ≤ b.size)
    ∧ (∀ icons order s,
        (sort_icons icons order).filter (fun i => decide (i.size = s))
          = icons.filter fun i => decide (i.size = s))
    ∧ (∀ icons order, (sort_icons icons order).Perm icons)
    ∧ (∀ a b c : PngIcon, a.size = 16 → b.size = 48 → c.size = 256 →
        sort_icons [a, b, c] "desc" = [c, b, a]
        ∧ sort_icons [a, b, c] "asc" = [a, b, c]) := by
  refine ⟨?_, ?_, ?_, ?_, ?_⟩
  · intro icons
    refine (sortS_pairwise (sizeLe_total "desc") (sizeLe_trans "desc")
      icons).imp ?_
    intro a b h
    simpa [sizeLe] using h
  · intro icons
    refine (sortS_pairwise (sizeLe_total "asc") (sizeLe_trans "asc")
      icons).imp ?_
    intro a b h
    simpa [sizeLe] using h
  · intro icons order s
    refine sortS_filter ?_ icons
    intro x y hx hy
    simp only [decide_eq_true_eq] at hx hy
    simp [sizeLe, hx, hy]
  · intro icons order
    exact sortS_perm _ icons
  · intro a b c ha hb hc
    constructor <;>
      simp [sort_icons, sortS, insertS, sizeLe, ha, hb, hc]

/-- Witness for C6 at concrete icons of sizes 16, 48, 256. -/
theorem C6_sort_icons_witness :
    wIcon16.size = 16 ∧ wIcon48.size = 48 ∧ wIcon256.size = 256
    ∧ sort_icons [wIcon16, wIcon48, wIcon256] "desc"
        = [wIcon256, wIcon48, wIcon16]
    ∧ sort_icons [wIcon16, wIcon48, wIcon256] "asc"
        = [wIcon16, wIcon48, wIcon256] :=
  ⟨rfl, rfl, rfl,
   (C6_sort_icons.2.2.2.2 wIcon16 wIcon48 wIcon256 rfl rfl rfl).1,
   (C6_sort_icons.2.2.2.2 wIcon16 wIcon48 wIcon256 rfl rfl rfl).2⟩

/-! ### Dictionary lemmas (Python `dict` as an insertion-ordered
last-write-wins association list) -/

theorem insertLW_mem_sub {m : List (Nat × PngIcon)} {k : Nat} {v : PngIcon}
    {kv : Nat × PngIcon} (h : kv ∈ insertLW m k v) : kv = (k, v) ∨ kv ∈ m := by
  induction m with
  | nil => simpa [insertLW] using h
  | cons hd tl ih =>
    obtain ⟨k0, v0⟩ := hd
    unfold insertLW at h
    split at h
    · rcases List.mem_cons.mp h with h' | h'
      · exact Or.inl h'
      · exact Or.inr (List.mem_cons.mpr (Or.inr h'))
    · rcases List.mem_cons.mp h with h' | h'
      · exact Or.inr (List.mem_cons.mpr (Or.inl h'))
      · rcases ih h' with h'' | h''
        · exact Or.inl h''
        · exact Or.inr (List.mem_cons.mpr (Or.inr h''))

theorem insertLW_keys (m : List (Nat × PngIcon)) (k : Nat) (v : PngIcon)
    (k' : Nat) :
    k' ∈ (insertLW m k v).map Prod.fst ↔ k' ∈ m.map Prod.fst ∨ k' = k := by
  induction m with
  | nil => simp [insertLW]
  | cons hd tl ih =>
    obtain ⟨k0, v0⟩ := hd
    unfold insertLW
    split
    next heq =>
      subst heq
      simp
      tauto
    next hne =>
      simp only [List.map_cons, List.mem_cons, ih]
      tauto

theorem insertLW_nodup {m : List (Nat × PngIcon)}
    (hm : (m.map Prod.fst).Nodup) (k : Nat) (v : PngIcon) :
    ((insertLW m k v).map Prod.fst).Nodup := by
  induction m with
  | nil => simp [insertLW]
  | cons hd tl ih =>
    obtain ⟨k0, v0⟩ := hd
    simp only [List.map_cons, List.nodup_cons] at hm
    unfold insertLW
    split
    next heq =>
      subst heq
      simp only [List.map_cons, List.nodup_cons]
      exact ⟨hm.1, hm.2⟩
    next hne =>
      simp only [List.map_cons, List.nodup_cons]
      refine ⟨?_, ih hm.2⟩
      rw [insertLW_keys]
      rintro (h | h)
      · exact hm.1 h
      · exact hne h

theorem insertLW_mem_iff {m : List (Nat × PngIcon)}
    (hm : (m.map Prod.fst).Nodup) (k : Nat) (v : PngIcon)
    (k' : Nat) (v' : PngIcon) :
    (k', v') ∈ insertLW m k v
      ↔ (k' = k ∧ v' = v) ∨ ((k', v') ∈ m ∧ k' ≠ k) := by
  induction m with
  | nil => simp [insertLW]
  | cons hd tl ih =>
    obtain ⟨k0, v0⟩ := hd
    simp only [List.map_cons, List.nodup_cons] at hm
    unfold insertLW
    split
    next heq =>
      subst heq
      constructor
      · intro h
        rcases List.mem_cons.mp h with h' | h'
        · simp only [Prod.mk.injEq] at h'
          exact Or.inl h'
        · refine Or.inr ⟨List.mem_cons.mpr (Or.inr h'), fun he => ?_⟩
          subst he
          exact hm.1 (List.mem_map_of_mem Prod.fst h')
      · rintro (⟨rfl, rfl⟩ | ⟨hmem, hne⟩)
        · exact List.mem_cons.mpr (Or.inl rfl)
        · rcases List.mem_cons.mp hmem with h' | h'
          · simp only [Prod.mk.injEq] at h'
            exact absurd h'.1 hne
          · exact List.mem_cons.mpr (Or.inr h')
    next hne0 =>
      rw [List.mem_cons, ih hm.2]
      constructor
      · rintro (h' | h')
        · simp only [Prod.mk.injEq] at h'
          refine Or.inr ⟨List.mem_cons.mpr (Or.inl (by simp [h'.1, h'.2])),
            fun he => hne0 (h'.1 ▸ he)⟩
        · rcases h' with ⟨rfl, rfl⟩ | ⟨hmem, hne⟩
          · exact Or.inl ⟨rfl, rfl⟩
          · exact Or.inr ⟨List.mem_cons.mpr (Or.inr hmem), hne⟩
      · rintro (⟨rfl, rfl⟩ | ⟨hmem, hne⟩)
        · exact Or.inr (Or.inl ⟨rfl, rfl⟩)
        · rcases List.mem_cons.mp hmem with h' | h'
          · exact Or.inl h'
          · exact Or.inr (Or.inr ⟨h', hne⟩)

theorem dictFold_spec : ∀ (icons : List PngIcon) (m : List (Nat × PngIcon)),
    (m.map Prod.fst).Nodup →
    (((icons.foldl (fun m icon => insertLW m icon.size icon) m).map
        Prod.fst).Nodup
      ∧ ∀ k v, (k, v) ∈ icons.foldl (fun m icon => insertLW m icon.size icon) m
          ↔ ((icons.filter fun j => decide (j.size = k)).getLast? = some v
            ∨ ((icons.filter fun j => decide (j.size = k)) = []
                ∧ (k, v) ∈ m))) := by
  intro icons
  induction icons with
  | nil =>
    intro m hm
    refine ⟨hm, fun k v => ?_⟩
    simp
  | cons ic rest ih =>
    intro m hm
    have hm' := insertLW_nodup hm ic.size ic
    obtain ⟨ihd, ihm⟩ := ih (insertLW m ic.size ic) hm'
    refine ⟨ihd, fun k v => ?_⟩
    rw [List.foldl_cons] at *
    rw [ihm k v]
    by_cases hks : ic.size = k
    · subst hks
      have hfull : ((ic :: rest).filter fun j => decide (j.size = ic.size))
          = ic :: (rest.filter fun j => decide (j.size = ic.size)) := by
        rw [List.filter_cons]
        simp
      rw [hfull]
      cases hre : rest.filter fun j => decide (j.size = ic.size) with
      | nil =>
        rw [insertLW_mem_iff hm ic.size ic ic.size v]
        simp [eq_comm]
      | cons f fs =>
        rw [List.getLast?_cons_cons]
        simp
    · have hfull : ((ic :: rest).filter fun j => decide (j.size = k))
          = rest.filter fun j => decide (j.size = k) := by
        rw [List.filter_cons]
        simp [hks]
      rw [hfull, insertLW_mem_iff hm ic.size ic k v]
      constructor
      · rintro (h | ⟨hre, (⟨rfl, rfl⟩ | ⟨hmem, -⟩)⟩)
        · exact Or.inl h
        · exact absurd rfl hks
        · exact Or.inr ⟨hre, hmem⟩
      · rintro (h | ⟨hre, hmem⟩)
        · exact Or.inl h
        · exact Or.inr ⟨hre, Or.inr ⟨hmem, fun he => hks he.symm⟩⟩

theorem dictFold_key_eq : ∀ (icons : List PngIcon)
    (m : List (Nat × PngIcon)), (∀ kv ∈ m, kv.1 = kv.2.size) →
    ∀ kv ∈ icons.foldl (fun m icon => insertLW m icon.size icon) m,
      kv.1 = kv.2.size := by
  intro icons
  induction icons with
  | nil => intro m hm kv hkv; exact hm kv hkv
  | cons ic rest ih =>
    intro m hm kv hkv
    rw [List.foldl_cons] at hkv
    refine ih (insertLW m ic.size ic) ?_ kv hkv
    intro kv' hkv'
    rcases insertLW_mem_sub hkv' with rfl | h
    · rfl
    · exact hm kv' h

theorem unique_by_size_mem (icons : List PngIcon) (icon : PngIcon) :
    icon ∈ unique_by_size icons ↔
      (icons.filter fun j => decide (j.size = icon.size)).getLast?
        = some icon := by
  unfold unique_by_size
  constructor
  · intro h
    obtain ⟨⟨k, v⟩, hkv, hsnd⟩ := List.mem_map.mp h
    simp only at hsnd
    subst hsnd
    have hk : k = v.size := dictFold_key_eq icons [] (by simp) _ hkv
    subst hk
    rcases ((dictFold_spec icons [] (by simp)).2 v.size v).mp hkv with
      h' | ⟨-, hmem⟩
    · exact h'
    · simp at hmem
  · intro h
    have hmem := ((dictFold_spec icons [] (by simp)).2 icon.size icon).mpr
      (Or.inl h)
    exact List.mem_map.mpr ⟨(icon.size, icon), hmem, rfl⟩

theorem unique_by_size_sizes_nodup (icons : List PngIcon) :
    ((unique_by_size icons).map fun i => i.size).Nodup := by
  unfold unique_by_size
  rw [List.map_map]
  have hmaps : (icons.foldl (fun m icon => insertLW m icon.size icon)
        []).map ((fun i : PngIcon => i.size) ∘ Prod.snd)
      = (icons.foldl (fun m icon => insertLW m icon.size icon) []).map
          Prod.fst :=
    List.map_congr_left fun kv hkv =>
      (dictFold_key_eq icons [] (by simp) kv hkv).symm
  rw [hmaps]
  exact (dictFold_spec icons [] (by simp)).1

theorem unique_by_size_sizes_mem (icons : List PngIcon) (s : Nat) :
    s ∈ ((unique_by_size icons).map fun i => i.size)
      ↔ s ∈ icons.map fun i => i.size := by
  constructor
  · intro h
    obtain ⟨icon, hmem, rfl⟩ := List.mem_map.mp h
    have hlast := (unique_by_size_mem icons icon).mp hmem
    have hin : icon ∈ icons.filter fun j => decide (j.size = icon.size) :=
      List.mem_of_mem_getLast? hlast
    exact List.mem_map_of_mem _ (List.mem_filter.mp hin).1
  · intro h
    obtain ⟨j, hj, rfl⟩ := List.mem_map.mp h
    have hne : (icons.filter fun i => decide (i.size = j.size)) ≠ [] := by
      rw [Ne, List.filter_eq_nil_iff]
      push_neg
      exact ⟨j, hj, by simp⟩
    obtain ⟨v, hv⟩ := Option.isSome_iff_exists.mp
      (List.getLast?_isSome.mpr hne)
    have hvj : v.size = j.size := by
      have hvf : v ∈ icons.filter fun i => decide (i.size = j.size) :=
        List.mem_of_mem_getLast? hv
      simpa using (List.mem_filter.mp hvf).2
    have hvu : v ∈ unique_by_size icons := by
      rw [unique_by_size_mem, hvj]
      exact hv
    rw [← hvj]
    exact List.mem_map_of_mem _ hvu

/-! ### Claim C5 -/

/-- Claim C5: Deduplication is last-write-wins keyed by size: the result of
`unique_by_size` contains exactly one icon per distinct size appearing in
the input, and for each size it is the last icon with that size in input
order; given two icons both of size 32, the output is exactly the later
one. -/
theorem C5_unique_by_size :
    (∀ icons icon, icon ∈ unique_by_size icons ↔
        (icons.filter fun j => decide (j.size = icon.size)).getLast?
          = some icon)
    ∧ (∀ icons, ((unique_by_size icons).map fun i => i.size).Nodup)
    ∧ (∀ icons s, s ∈ ((unique_by_size icons).map fun i => i.size)
        ↔ s ∈ icons.map fun i => i.size)
    ∧ (∀ a b : PngIcon, a.size = 32 → b.size = 32 →
        unique_by_size [a, b] = [b]) := by
  refine ⟨unique_by_size_mem, unique_by_size_sizes_nodup,
    unique_by_size_sizes_mem, ?_⟩
  intro a b ha hb
  simp [unique_by_size, insertLW, ha, hb]

/-- Witness for C5 at two concrete icons of size 32. -/
theorem C5_unique_by_size_witness :
    wDup1.size = 32 ∧ wDup2.size = 32
    ∧ unique_by_size [wDup1, wDup2] = [wDup2] :=
  ⟨rfl, rfl, C5_unique_by_size.2.2.2 wDup1 wDup2 rfl rfl⟩

/-! ### Size-list parsing lemmas -/

theorem parseSizesLoop_all_empty : ∀ (ts : List String) (acc : List Nat),
    (∀ t ∈ ts, pyStrip t = "") → parseSizesLoop ts acc = Except.ok acc := by
  intro ts
  induction ts with
  | nil => intro acc _; rfl
  | cons t0 ts ih =>
    intro acc h
    unfold parseSizesLoop
    rw [if_pos (h t0 (List.mem_cons_self t0 ts))]
    exact ih acc fun t ht => h t (List.mem_cons.mpr (Or.inr ht))

theorem parseSizesLoop_bad {t : String} (hne : pyStrip t ≠ "")
    (hbad : pyInt (pyStrip t) = none
      ∨ ∃ v, pyInt (pyStrip t) = some v ∧ v ≤ 0) :
    ∀ ts : List String, t ∈ ts → ∀ acc,
      ∃ msg, parseSizesLoop ts acc = Except.error msg := by
  intro ts
  induction ts with
  | nil => intro h; cases h
  | cons t0 ts ih =>
    intro hmem acc
    unfold parseSizesLoop
    by_cases h0 : pyStrip t0 = ""
    · rw [if_pos h0]
      refine ih ?_ acc
      rcases List.mem_cons.mp hmem with rfl | h
      · exact absurd h0 hne
      · exact h
    · rw [if_neg h0]
      cases hint : pyInt (pyStrip t0) with
      | none =>
        simp only [hint]
        exact ⟨_, rfl⟩
      | some v =>
        simp only [hint]
        by_cases hv : v ≤ 0
        · rw [if_pos hv]
          exact ⟨_, rfl⟩
        · rw [if_neg hv]
          refine ih ?_ _
          rcases List.mem_cons.mp hmem with rfl | h
          · rcases hbad with hb | ⟨w, hw, hwle⟩
            · rw [hint] at hb
              cases hb
            · rw [hint] at hw
              injection hw with hw
              exact absurd (hw ▸ hwle) hv
          · exact h

theorem parse_sizes_bad_token {raw t : String} (hraw : raw ≠ "")
    (hmem : t ∈ pySplitComma raw) (hne : pyStrip t ≠ "")
    (hbad : pyInt (pyStrip t) = none
      ∨ ∃ v, pyInt (pyStrip t) = some v ∧ v ≤ 0) :
    ∃ msg, parse_sizes (some raw) = Except.error msg := by
  obtain ⟨msg, hmsg⟩ := parseSizesLoop_bad hne hbad (pySplitComma raw) hmem []
  refine ⟨msg, ?_⟩
  simp only [parse_sizes]
  rw [if_neg hraw]
  simp only [hmsg]

theorem parse_sizes_all_empty {raw : String} (hraw : raw ≠ "")
    (hall : ∀ t ∈ pySplitComma raw, pyStrip t = "") :
    ∃ msg, parse_sizes (some raw) = Except.error msg := by
  refine ⟨"at least one size must be provided with --sizes", ?_⟩
  simp only [parse_sizes]
  rw [if_neg hraw, parseSizesLoop_all_empty (pySplitComma raw) [] hall]
  rfl

theorem parse_sizes_error_main {args : Args} {e : String}
    (herr : parse_sizes args.sizes = Except.error e)
    (fs : List (String × List Nat)) :
    mainRun args fs = ⟨1, none, "error: " ++ e⟩ := by
  simp only [mainRun, herr]

/-! ### Claim C7 -/

/-- Counterexample to C7: The claim says size-set parsing fails with a
`ConfigError` on any non-numeric token.  The string `",64"` splits into
the tokens `""` and `"64"`; the empty token is non-numeric
(`pyInt "" = none`), yet parsing succeeds with the set `{64}`: empty
tokens are skipped, not rejected. -/
theorem C7_counterexample :
    "" ∈ pySplitComma ",64"
    ∧ pyStrip "" = ""
    ∧ pyInt "" = none
    ∧ parse_sizes (some ",64") = Except.ok (some [64]) :=
  ⟨by decide, rfl, rfl, rfl⟩

/-- Claim C7, amended: Size-set parsing splits the text on commas, trims
whitespace from each token, *skips tokens that are empty after trimming*,
parses each remaining token as a positive integer, fails on any remaining
non-numeric or non-positive token, and fails when the resulting set is
empty (an entirely empty input text yields no allow-list instead); the
allow-list string `"0,64"` causes an error, and this failure occurs before
any input file is read (the run's outcome does not depend on the
filesystem, exits with code 1 and writes nothing). -/
theorem C7_parse_sizes :
    parse_sizes none = Except.ok none
    ∧ parse_sizes (some "") = Except.ok none
    ∧ (∀ raw t, raw ≠ "" → t ∈ pySplitComma raw → pyStrip t ≠ "" →
        (pyInt (pyStrip t) = none
          ∨ ∃ v, pyInt (pyStrip t) = some v ∧ v ≤ 0) →
        ∃ msg, parse_sizes (some raw) = Except.error msg)
    ∧ (∀ raw, raw ≠ "" → (∀ t ∈ pySplitComma raw, pyStrip t = "") →
        ∃ msg, parse_sizes (some raw) = Except.error msg)
    ∧ (∃ msg, parse_sizes (some "0,64") = Except.error msg)
    ∧ (∀ (args : Args) fs fs', args.sizes = some "0,64" →
        mainRun args fs = mainRun args fs'
        ∧ (mainRun args fs).exitCode = 1
        ∧ (mainRun args fs).written = none) := by
  refine ⟨rfl, rfl, ?_, ?_, ⟨"size must be > 0", rfl⟩, ?_⟩
  · intro raw t hraw hmem hne hbad
    exact parse_sizes_bad_token hraw hmem hne hbad
  · intro raw hraw hall
    exact parse_sizes_all_empty hraw hall
  · intro args fs fs' h
    have he : parse_sizes args.sizes = Except.error "size must be > 0" := by
      rw [h]
      rfl
    rw [parse_sizes_error_main he fs, parse_sizes_error_main he fs']
    exact ⟨rfl, rfl, rfl⟩

/-- Witness for C7: a non-numeric token, an all-empty token list, and a
concrete `"0,64"` run that ignores the filesystem. -/
theorem C7_parse_sizes_witness :
    (∃ msg, parse_sizes (some "x") = Except.error msg)
    ∧ (∃ msg, parse_sizes (some ",") = Except.error msg)
    ∧ (mainRun { sizes := some "0,64" } []
          = mainRun { sizes := some "0,64" } wFs
        ∧ (mainRun { sizes := some "0,64" } []).exitCode = 1
        ∧ (mainRun { sizes := some "0,64" } []).written = none) :=
  ⟨C7_parse_sizes.2.2.1 "x" "x" (by decide) (by decide) (by decide)
      (Or.inl rfl),
   C7_parse_sizes.2.2.2.1 "," (by decide) (by decide),
   C7_parse_sizes.2.2.2.2.2 { sizes := some "0,64" } [] wFs rfl⟩

/-! ### Lexicographic path order -/

theorem lexLe_total : ∀ x y : List Char, lexLe x y = true ∨ lexLe y x = true := by
  intro x
  induction x with
  | nil => intro y; exact Or.inl rfl
  | cons a as ih =>
    intro y
    cases y with
    | nil => exact Or.inr rfl
    | cons b bs =>
      unfold lexLe
      by_cases hab : a < b
      · left
        rw [if_pos hab]
      · by_cases hba : b < a
        · right
          rw [if_pos hba]
        · rw [if_neg hab, if_neg hba, if_neg hba, if_neg hab]
          exact ih bs

theorem lexLe_trans : ∀ x y z : List Char,
    lexLe x y = true → lexLe y z = true → lexLe x z = true := by
  intro x
  induction x with
  | nil => intro y z _ _; rfl
  | cons a as ih =>
    intro y z hxy hyz
    cases y with
    | nil => simp [lexLe] at hxy
    | cons b bs =>
      cases z with
      | nil => simp [lexLe] at hyz
      | cons c cs =>
        unfold lexLe at hxy hyz ⊢
        by_cases hab : a < b
        · by_cases hbc : b < c
          · rw [if_pos (lt_trans hab hbc)]
          · by_cases hcb : c < b
            · rw [if_neg hbc, if_pos hcb] at hyz
              exact absurd hyz (by simp)
            · have hbceq : b = c := le_antisymm (not_lt.mp hcb) (not_lt.mp hbc)
              have hac : a < c := by
                rw [← hbceq]
                exact hab
              rw [if_pos hac]
        · by_cases hba : b < a
          · rw [if_neg hab, if_pos hba] at hxy
            exact absurd hxy (by simp)
          · have habeq : a = b := le_antisymm (not_lt.mp hba) (not_lt.mp hab)
            rw [if_neg hab, if_neg hba] at hxy
            by_cases hbc : b < c
            · have hac : a < c := by
                rw [habeq]
                exact hbc
              rw [if_pos hac]
            · by_cases hcb : c < b
              · rw [if_neg hbc, if_pos hcb] at hyz
                exact absurd hyz (by simp)
              · have hbceq : b = c := le_antisymm (not_lt.mp hcb) (not_lt.mp hbc)
                rw [if_neg hbc, if_neg hcb] at hyz
                have haceq : a = c := habeq.trans hbceq
                rw [if_neg (haceq ▸ lt_irrefl a), if_neg (haceq ▸ lt_irrefl a)]
                exact ih bs cs hxy hyz

theorem strLe_total (a b : String) : strLe a b = true ∨ strLe b a = true :=
  lexLe_total a.data b.data

theorem strLe_trans (a b c : String) (h1 : strLe a b = true)
    (h2 : strLe b c = true) : strLe a c = true :=
  lexLe_trans a.data b.data c.data h1 h2

theorem globSorted_pairwise (dir : String) (fs : List (String × List Nat)) :
    (globSorted dir fs).Pairwise fun a b => strLe a b = true :=
  sortS_pairwise strLe_total strLe_trans _

theorem globSorted_mem (dir : String) (fs : List (String × List Nat))
    (p : String) :
    p ∈ globSorted dir fs
      ↔ p ∈ fs.map Prod.fst ∧ matchesIconGlob dir p = true := by
  unfold globSorted
  rw [(sortS_perm _ _).mem_iff, List.mem_filter]

/-! ### Filtering and pipeline lemmas -/

theorem filter_icons_ok {icons : List PngIcon} {inc : Option (List Nat)}
    {ms : Int} {res : List PngIcon}
    (h : filter_icons icons inc ms = Except.ok res) :
    res = icons.filter (keepIcon inc ms) ∧ res ≠ [] := by
  simp only [filter_icons] at h
  split at h
  · exact absurd h (by simp)
  next hne =>
    rw [Except.ok.injEq] at h
    subst h
    exact ⟨rfl, hne⟩

theorem filter_icons_empty {icons : List PngIcon} {inc : Option (List Nat)}
    {ms : Int} (h : icons.filter (keepIcon inc ms) = []) :
    filter_icons icons inc ms = Except.error "no icons left after filtering" := by
  simp only [filter_icons]
  rw [h]
  rfl

theorem keepIcon_iff (inc : Option (List Nat)) (ms : Int) (icon : PngIcon) :
    keepIcon inc ms icon = true
      ↔ ((icon.size : Int) ≤ ms ∧ ∀ l, inc = some l → icon.size ∈ l) := by
  unfold keepIcon
  cases inc with
  | none => simp [not_lt]
  | some l => simp [not_lt]

theorem keepIcon_false_of_oversize {inc : Option (List Nat)} {ms : Int}
    {icon : PngIcon} (h : ms < (icon.size : Int)) :
    keepIcon inc ms icon = false := by
  unfold keepIcon
  simp [h]

theorem selectAndBuild_filter_empty {icons : List PngIcon}
    {inc : Option (List Nat)} {g : Bool} {ms : Int} {ord : String}
    (h : ∀ inc', icons.filter (keepIcon inc' ms) = []) :
    selectAndBuild icons inc g ms ord
      = Except.error "no icons left after filtering" := by
  simp only [selectAndBuild]
  rw [filter_icons_empty (h _)]

theorem selectAndBuild_ok {icons : List PngIcon} {inc : Option (List Nat)}
    {g : Bool} {ms : Int} {ord : String} {p : List PngIcon × List Nat}
    (h : selectAndBuild icons inc g ms ord = Except.ok p) :
    (∃ kept, p.1 = sort_icons (unique_by_size kept) ord)
    ∧ build_ico p.1 = Except.ok p.2 := by
  simp only [selectAndBuild] at h
  split at h
  · exact absurd h (by simp)
  rename_i kept hkept
  split at h
  · exact absurd h (by simp)
  rename_i bytes hbytes
  rw [Except.ok.injEq] at h
  subst h
  exact ⟨⟨kept, rfl⟩, hbytes⟩

theorem mainRun_ok {args : Args} {fs : List (String × List Nat)}
    (h : (mainRun args fs).exitCode = 0) :
    ∃ final bytes,
      (mainRun args fs).written = some bytes
      ∧ build_ico final = Except.ok bytes
      ∧ (∃ kept, final = sort_icons (unique_by_size kept) args.order)
      ∧ (mainRun args fs).line
          = "Wrote " ++ args.output ++ " with " ++ toString final.length
            ++ " images: "
            ++ String.intercalate ", "
                (final.map fun icon => toString icon.size) := by
  cases hp : parse_sizes args.sizes with
  | error e =>
    rw [parse_sizes_error_main hp fs] at h
    simp at h
  | ok inc =>
    simp only [mainRun, hp] at h ⊢
    by_cases hd : discover_pngs args.iconsDir args.inputs fs = []
    · rw [if_pos hd] at h
      simp at h
    · rw [if_neg hd] at h ⊢
      cases hr : readAll fs (discover_pngs args.iconsDir args.inputs fs) with
      | error e =>
        simp only [hr] at h
        simp at h
      | ok icons =>
        simp only [hr] at h ⊢
        cases hs : selectAndBuild icons inc (inputsTruthy args.inputs)
            args.maxSize args.order with
        | error e =>
          simp only [hs] at h
          simp at h
        | ok p =>
          obtain ⟨final, bytes⟩ := p
          simp only [hs] at h ⊢
          exact ⟨final, bytes, rfl, (selectAndBuild_ok hs).2,
            (selectAndBuild_ok hs).1, rfl⟩

theorem mainRun_error_written {args : Args} {fs : List (String × List Nat)}
    (h : (mainRun args fs).exitCode ≠ 0) :
    (mainRun args fs).written = none := by
  cases hp : parse_sizes args.sizes with
  | error e =>
    rw [parse_sizes_error_main hp fs]
  | ok inc =>
    simp only [mainRun, hp] at h ⊢
    by_cases hd : discover_pngs args.iconsDir args.inputs fs = []
    · rw [if_pos hd]
    · rw [if_neg hd] at h ⊢
      cases hr : readAll fs (discover_pngs args.iconsDir args.inputs fs) with
      | error e =>
        simp only [hr]
      | ok icons =>
        simp only [hr] at h ⊢
        cases hs : selectAndBuild icons inc (inputsTruthy args.inputs)
            args.maxSize args.order with
        | error e =>
          simp only [hs]
        | ok p =>
          obtain ⟨final, bytes⟩ := p
          simp only [hs] at h
          simp at h

/-! ### Claim C3 -/

/-- Claim C3: When no explicit size set and no explicit input list are
given, the active allow-list becomes the intersection of the discovered
icon sizes with the preferred list `{256,128,64,48,32,24,16}`, but only if
that intersection is non-empty; for inputs of sizes 16, 32 and 256 with
defaults, the output ICO has exactly 3 directory entries ordered
`[256, 32, 16]`, a header count field of 3, and total byte length
`6 + 48 +` the sum of the three PNG payload lengths. -/
theorem C3_default_sizes :
    (∀ icons preferred, defaultPreferred icons = some preferred →
        ∀ s, s ∈ preferred
          ↔ (s ∈ DEFAULT_ICO_SIZES_DESC ∧ ∃ icon ∈ icons, icon.size = s))
    ∧ (∀ icons, defaultPreferred icons = none →
        ∀ s, s ∈ DEFAULT_ICO_SIZES_DESC → ¬∃ icon ∈ icons, icon.size = s)
    ∧ (∀ a b c : PngIcon, a.size = 16 → b.size = 32 → c.size = 256 →
        54 + (a.data.length + b.data.length + c.data.length) < 2 ^ 32 →
        ∃ bytes,
          selectAndBuild [a, b, c] none false 256 "desc"
              = Except.ok ([c, b, a], bytes)
          ∧ ([c, b, a].map fun i => i.size) = [256, 32, 16]
          ∧ bytes.take 6 = u16le 0 ++ u16le 1 ++ u16le 3
          ∧ bytes.length = 6 + 48
              + (c.data.length + b.data.length + a.data.length)) := by
  refine ⟨?_, ?_, ?_⟩
  · intro icons preferred h s
    simp only [defaultPreferred] at h
    split at h
    · exact absurd h (by simp)
    · rw [Option.some.injEq] at h
      subst h
      rw [List.mem_filter]
      simp [List.any_eq_true]
  · intro icons h s hs hex
    simp only [defaultPreferred] at h
    split at h
    next hemp =>
      rw [List.isEmpty_iff] at hemp
      obtain ⟨icon, hmem, hsz⟩ := hex
      have hin : s ∈ DEFAULT_ICO_SIZES_DESC.filter
          (fun size => icons.any fun icon => icon.size = size) := by
        rw [List.mem_filter]
        refine ⟨hs, ?_⟩
        simp only [List.any_eq_true, decide_eq_true_eq]
        exact ⟨icon, hmem, hsz⟩
      rw [hemp] at hin
      cases hin
    next => exact absurd h (by simp)
  · intro a b c ha hb hc hlen
    have hpref : defaultPreferred [a, b, c] = some [256, 32, 16] := by
      simp [defaultPreferred, DEFAULT_ICO_SIZES_DESC, ha, hb, hc]
    have hkeep : ∀ i ∈ [a, b, c], keepIcon (some [256, 32, 16]) 256 i = true := by
      intro i hi
      rcases List.mem_cons.mp hi with rfl | hi'
      · unfold keepIcon
        rw [ha]
        rfl
      rcases List.mem_cons.mp hi' with rfl | hi''
      · unfold keepIcon
        rw [hb]
        rfl
      rcases List.mem_cons.mp hi'' with rfl | hi'''
      · unfold keepIcon
        rw [hc]
        rfl
      · cases hi'''
    have hfi : filter_icons [a, b, c] (some [256, 32, 16]) 256
        = Except.ok [a, b, c] := by
      simp only [filter_icons]
      rw [List.filter_eq_self.mpr hkeep]
      rw [if_neg (by simp)]
    have huniq : unique_by_size [a, b, c] = [a, b, c] := by
      simp [unique_by_size, insertLW, ha, hb, hc]
    have hsort : sort_icons [a, b, c] "desc" = [c, b, a] := by
      simp [sort_icons, sortS, insertS, sizeLe, ha, hb, hc]
    have hsz256 : ∀ ic ∈ [c, b, a], ic.size ≤ 256 := by
      intro ic hic
      rcases List.mem_cons.mp hic with rfl | hic'
      · omega
      rcases List.mem_cons.mp hic' with rfl | hic''
      · omega
      rcases List.mem_cons.mp hic'' with rfl | hic'''
      · omega
      · cases hic'''
    have hsum : (([c, b, a]).map fun ic => ic.data.length).sum
        = c.data.length + b.data.length + a.data.length := by
      simp
      omega
    have hlen' : 6 + 16 * ([c, b, a] : List PngIcon).length
        + (([c, b, a]).map fun ic => ic.data.length).sum < 2 ^ 32 := by
      rw [hsum]
      simp only [List.length_cons, List.length_nil]
      omega
    have hbuild := @build_ico_of_bounds [c, b, a] (by simp)
      hsz256 hlen'
    refine ⟨icoHeader ([c, b, a] : List PngIcon).length
        ++ entriesSpecAux [c, b, a] (6 + 16 * ([c, b, a] : List PngIcon).length)
        ++ [c, b, a].flatMap (fun ic => ic.data), ?_, ?_, ?_, ?_⟩
    · simp [selectAndBuild, hpref, hfi, huniq, hsort, hbuild]
    · simp [ha, hb, hc]
    · rw [List.append_assoc,
        show (6 : Nat) = (icoHeader ([c, b, a] : List PngIcon).length).length
          from rfl,
        List.take_left]
      rfl
    · simp only [List.length_append, icoHeader_length, entriesSpecAux_length,
        flatMap_data_length]
      rw [hsum]
      simp only [List.length_cons, List.length_nil]

/-- Witness for C3 at three concrete parsed icons. -/
theorem C3_default_sizes_witness :
    (wIcon16.size = 16 ∧ wIcon32.size = 32 ∧ wIcon256.size = 256
      ∧ 54 + (wIcon16.data.length + wIcon32.data.length
          + wIcon256.data.length) < 2 ^ 32)
    ∧ ∃ bytes,
        selectAndBuild [wIcon16, wIcon32, wIcon256] none false 256 "desc"
            = Except.ok ([wIcon256, wIcon32, wIcon16], bytes)
        ∧ ([wIcon256, wIcon32, wIcon16].map fun i => i.size) = [256, 32, 16]
        ∧ bytes.take 6 = u16le 0 ++ u16le 1 ++ u16le 3
        ∧ bytes.length = 6 + 48 + (wIcon256.data.length
            + wIcon32.data.length + wIcon16.data.length) :=
  ⟨⟨rfl, rfl, rfl, by decide⟩,
   C3_default_sizes.2.2 wIcon16 wIcon32 wIcon256 rfl rfl rfl (by decide)⟩

/-! ### Claim C8 -/

/-- Claim C8: Filtering keeps exactly the icons whose size is at most the
configured maximum and, when an allow-list is active, whose size is a
member of it; if no icon survives, the run fails with an error, the
process exits with code 1, and no output file is written (in particular
for max-size 16 against only 32×32 and 256×256 inputs). -/
theorem C8_filter_icons :
    (∀ icons inc ms res, filter_icons icons inc ms = Except.ok res →
        res = icons.filter (keepIcon inc ms) ∧ res ≠ [])
    ∧ (∀ inc ms icon, keepIcon inc ms icon = true
        ↔ ((icon.size : Int) ≤ ms ∧ ∀ l, inc = some l → icon.size ∈ l))
    ∧ (∀ icons inc ms, icons.filter (keepIcon inc ms) = [] →
        filter_icons icons inc ms
          = Except.error "no icons left after filtering")
    ∧ (∀ icons (inc : Option (List Nat)) (g : Bool) ord,
        (∀ icon ∈ icons, icon.size = 32 ∨ icon.size = 256) →
        selectAndBuild icons inc g 16 ord
          = Except.error "no icons left after filtering")
    ∧ (∀ (args : Args) fs, (mainRun args fs).exitCode ≠ 0 →
        (mainRun args fs).written = none)
    ∧ mainRun { maxSize := 16 } w8Fs
        = ⟨1, none, "error: no icons left after filtering"⟩ := by
  refine ⟨fun icons inc ms res h => filter_icons_ok h, keepIcon_iff,
    fun icons inc ms h => filter_icons_empty h, ?_,
    fun args fs h => mainRun_error_written h, rfl⟩
  intro icons inc g ord hsz
  apply selectAndBuild_filter_empty
  intro inc'
  rw [List.filter_eq_nil_iff]
  intro icon hmem
  rcases hsz icon hmem with h32 | h256
  · rw [keepIcon_false_of_oversize (by rw [h32]; decide)]
    simp
  · rw [keepIcon_false_of_oversize (by rw [h256]; decide)]
    simp

/-- Witness for C8: a surviving filter run, an all-dropped selection, and
the concrete max-size-16 scenario. -/
theorem C8_filter_icons_witness :
    ([wIcon32] = [wIcon32].filter (keepIcon none 256) ∧ [wIcon32] ≠ [])
    ∧ selectAndBuild [wIcon32, wIcon256] none false 16 "desc"
        = Except.error "no icons left after filtering"
    ∧ (mainRun { maxSize := 16 } w8Fs).written = none :=
  ⟨C8_filter_icons.1 [wIcon32] none 256 [wIcon32] rfl,
   C8_filter_icons.2.2.2.1 [wIcon32, wIcon256] none false "desc" (by decide),
   C8_filter_icons.2.2.2.2.1 { maxSize := 16 } w8Fs (by decide)⟩

/-! ### Claim C9 -/

/-- Counterexample to C9: The claim says the success line joins the
included sizes in ascending order.  With the default (descending) order
and icons of sizes 16 and 32, the run succeeds and prints the sizes as
`32, 16` — the directory order — not the ascending `16, 32`. -/
theorem C9_counterexample :
    (mainRun {} wFs).exitCode = 0
    ∧ (mainRun {} wFs).line
        = "Wrote public/icons/favicon.ico with 2 images: 32, 16"
    ∧ "Wrote public/icons/favicon.ico with 2 images: 32, 16"
        ≠ "Wrote public/icons/favicon.ico with 2 images: 16, 32" :=
  ⟨rfl, rfl, by decide⟩

/-- Claim C9, amended: On success the process exits with code 0 and prints
a one-line message listing the output path, the icon count, and the
included sizes comma-joined in directory-entry order (the configured
order: descending by default, ascending only with order `"asc"`). -/
theorem C9_success_message (args : Args) (fs : List (String × List Nat))
    (h : (mainRun args fs).exitCode = 0) :
    ∃ final bytes,
      (mainRun args fs).written = some bytes
      ∧ build_ico final = Except.ok bytes
      ∧ (mainRun args fs).line
          = "Wrote " ++ args.output ++ " with " ++ toString final.length
            ++ " images: "
            ++ String.intercalate ", "
                (final.map fun icon => toString icon.size)
      ∧ (args.order = "desc" → final.Pairwise fun a b => b.size ≤ a.size)
      ∧ (args.order ≠ "desc" → final.Pairwise fun a b => a.size ≤ b.size) := by
  obtain ⟨final, bytes, hw, hb, ⟨kept, hk⟩, hl⟩ := mainRun_ok h
  refine ⟨final, bytes, hw, hb, hl, ?_, ?_⟩
  · intro hord
    rw [hk, hord]
    refine (sortS_pairwise (sizeLe_total "desc") (sizeLe_trans "desc")
      _).imp ?_
    intro x y hxy
    simpa [sizeLe] using hxy
  · intro hord
    rw [hk]
    refine (sortS_pairwise (sizeLe_total args.order)
      (sizeLe_trans args.order) _).imp ?_
    intro x y hxy
    unfold sizeLe at hxy
    rw [if_neg hord] at hxy
    simpa using hxy

/-- Witness for C9 at a concrete successful run. -/
theorem C9_success_message_witness :
    (mainRun {} wFs).exitCode = 0
    ∧ ∃ final bytes,
        (mainRun {} wFs).written = some bytes
        ∧ build_ico final = Except.ok bytes
        ∧ (mainRun {} wFs).line
            = "Wrote " ++ ({} : Args).output ++ " with "
              ++ toString final.length ++ " images: "
              ++ String.intercalate ", "
                  (final.map fun icon => toString icon.size)
        ∧ (({} : Args).order = "desc" →
            final.Pairwise fun a b => b.size ≤ a.size)
        ∧ (({} : Args).order ≠ "desc" →
            final.Pairwise fun a b => a.size ≤ b.size) :=
  ⟨rfl, C9_success_message {} wFs rfl⟩

/-! ### Claim C10 -/

/-- Claim C10: An explicit but empty input list does not override directory
discovery: `discover_pngs` falls back to the lexicographically sorted
matches of the `icon-*.png` glob, and the run behaves exactly as if no
explicit inputs had been given (so the default preferred-size intersection
still applies). -/
theorem C10_empty_inputs :
    (∀ dir (inputs : Option (List String)) fs,
        (inputs = none ∨ inputs = some []) →
        discover_pngs dir inputs fs = globSorted dir fs)
    ∧ (∀ dir fs, (globSorted dir fs).Pairwise fun a b => strLe a b = true)
    ∧ (∀ dir fs p, p ∈ globSorted dir fs
        ↔ (p ∈ fs.map Prod.fst ∧ matchesIconGlob dir p = true))
    ∧ (∀ (args : Args) fs, args.inputs = some [] →
        mainRun args fs = mainRun { args with inputs := none } fs) := by
  refine ⟨?_, fun dir fs => globSorted_pairwise dir fs,
    fun dir fs p => globSorted_mem dir fs p, ?_⟩
  · rintro dir inputs fs (rfl | rfl) <;> rfl
  · intro args fs h
    obtain ⟨d, o, i, s, ord, ms⟩ := args
    replace h : i = some [] := h
    subst h
    rfl

/-- Witness for C10 at a concrete filesystem. -/
theorem C10_empty_inputs_witness :
    discover_pngs "public/icons" (some []) wFs = globSorted "public/icons" wFs
    ∧ mainRun { inputs := some [] } wFs = mainRun { inputs := none } wFs :=
  ⟨C10_empty_inputs.1 "public/icons" (some []) wFs (Or.inr rfl),
   C10_empty_inputs.2.2.2 { inputs := some [] } wFs rfl⟩

end Favicon
